import Mathlib

/-!
Verification of the conversation state machine and message rendering of the
`ai-sidebar` component (src/src/ai-sidebar.svelte) of siyuan-plugin-copilot.

The component's script is shallowly embedded:
* reactive Svelte variables (`messages`, `currentInput`, `isLoading`,
  `streamingMessage`) become fields of `ConvState`;
* the asynchronously loaded `settings` object becomes the `Settings`
  structure, where the empty string models a JavaScript-falsy
  (missing/empty) string field and `0` models a falsy numeric field;
* `sendMessage` becomes a pure function from settings and state to a
  `SendOutcome` recording the new state, the error notifications pushed via
  `pushErrMsg`, and the adapter invocation (if any) with its arguments;
* the three streaming callbacks and the `catch` handler become pure state
  transformers (`onChunk`, `onComplete`, `onError`, `catchHandler`);
* `formatMessage`'s chained JavaScript `String.replace` calls with global
  regexes are embedded as left-to-right scanners over `List Char`, one per
  `.replace` step, composed in the source order.

External collaborators (the `chat` provider adapter, token estimators,
clipboard, toasts) are represented only through their visible effects:
the adapter call arguments, the notification strings, and the clipboard
success flag.
-/

namespace AiSidebar

/-- Message roles, from the `Message` type used by the component
(`role: 'system' | 'user' | 'assistant'`). -/
inductive Role where
  | system
  | user
  | assistant
deriving DecidableEq

/-- A chat message `{ role, content }`. -/
structure Message where
  role : Role
  content : String
deriving DecidableEq

/-- The settings object loaded from the plugin. The empty string stands for
a JavaScript-falsy string option (missing or empty), `0` for a falsy
numeric option, mirroring the truthiness tests in the source. -/
structure Settings where
  aiApiKey : String
  aiModel : String
  aiSystemPrompt : String
  aiProvider : String
  aiTemperature : Rat
  aiMaxTokens : Nat
  aiCustomApiUrl : String
deriving DecidableEq

/-- The component's mutable conversation state: `messages`, `currentInput`,
`isLoading`, `streamingMessage`. -/
structure ConvState where
  messages : List Message
  currentInput : String
  isLoading : Bool
  streamingMessage : String
deriving DecidableEq

/-- The argument package passed to the external `chat` adapter in
`sendMessage` (provider, options object, custom URL). -/
structure AdapterCall where
  provider : String
  apiKey : String
  model : String
  msgs : List Message
  temperature : Rat
  maxTokens : Nat
  stream : Bool
  customApiUrl : String
deriving DecidableEq

/-- The visible outcome of one `sendMessage()` invocation: the state after
the synchronous part of the call, the error notifications pushed via
`pushErrMsg`, and the adapter invocation if one was issued. -/
structure SendOutcome where
  state : ConvState
  errMsgs : List String
  call : Option AdapterCall
deriving DecidableEq

/-- JavaScript `String.prototype.trim`: strip whitespace from both ends. -/
def jsTrim (s : String) : String :=
  String.mk (((s.data.dropWhile Char.isWhitespace).reverse.dropWhile
    Char.isWhitespace).reverse)

/-- The filter predicate `msg.role !== 'system'` used by `sendMessage`,
`copyAsMarkdown` and the message list rendering. -/
def nonSystem (m : Message) : Bool :=
  match m.role with
  | Role.system => false
  | _ => true

/-- Embeds `sendMessage` (source lines 59-124).  Guard: return if the
trimmed draft is empty or a send is in flight.  Then the two settings
checks push an error notification and return.  Otherwise the trimmed user
message is appended, the draft cleared, `isLoading` set, the streaming
buffer cleared, and `chat` is invoked with the filtered message list
(system prompt prepended by `unshift` when configured), the credentials,
model, temperature (`|| 0.7`), max tokens (`|| 2000`) and `stream: true`. -/
def sendMessage (settings : Settings) (s : ConvState) : SendOutcome :=
  if jsTrim s.currentInput = "" ∨ s.isLoading = true then
    ⟨s, [], none⟩
  else if settings.aiApiKey = "" then
    ⟨s, ["请先在设置中配置 API Key"], none⟩
  else if settings.aiModel = "" then
    ⟨s, ["请先在设置中选择模型"], none⟩
  else
    let userMessage : Message := ⟨Role.user, jsTrim s.currentInput⟩
    let newMessages := s.messages ++ [userMessage]
    let base := newMessages.filter nonSystem
    let messagesToSend :=
      if settings.aiSystemPrompt ≠ "" then
        ⟨Role.system, settings.aiSystemPrompt⟩ :: base
      else base
    ⟨⟨newMessages, "", true, ""⟩, [],
      some ⟨settings.aiProvider, settings.aiApiKey, settings.aiModel,
        messagesToSend,
        (if settings.aiTemperature = 0 then (7 : Rat) / 10
         else settings.aiTemperature),
        (if settings.aiMaxTokens = 0 then 2000 else settings.aiMaxTokens),
        true, settings.aiCustomApiUrl⟩⟩

/-- The `onChunk` callback (lines 99-102): append the chunk to the
streaming buffer.  The scroll side effect is view-only. -/
def onChunk (s : ConvState) (chunk : String) : ConvState :=
  { s with streamingMessage := s.streamingMessage ++ chunk }

/-- The `onComplete` callback (lines 103-112): commit the full text as a
new assistant message, clear the streaming buffer, stop loading. -/
def onComplete (s : ConvState) (fullText : String) : ConvState :=
  { s with
    messages := s.messages ++ [⟨Role.assistant, fullText⟩]
    streamingMessage := ""
    isLoading := false }

/-- The `onError` callback (lines 113-117): push the error notification,
stop loading, clear the streaming buffer.  Returns the new state together
with the `pushErrMsg` text. -/
def onError (s : ConvState) (errMessage : String) : ConvState × String :=
  ({ s with isLoading := false, streamingMessage := "" },
   "AI 请求失败: " ++ errMessage)

/-- The `catch` handler around the adapter call (lines 119-123): log the
error, stop loading, clear the streaming buffer.  Returns the new state
together with the `console.error` log line. -/
def catchHandler (s : ConvState) (error : String) : ConvState × String :=
  ({ s with isLoading := false, streamingMessage := "" },
   "Send message error: " ++ error)

/-- Embeds `clearChat` (lines 145-152): reset the history to the system
message when a system prompt is configured, otherwise to empty, and clear
the streaming buffer. -/
def clearChat (settings : Settings) (s : ConvState) : ConvState :=
  { s with
    messages :=
      if settings.aiSystemPrompt ≠ "" then
        [⟨Role.system, settings.aiSystemPrompt⟩]
      else []
    streamingMessage := "" }

/-- One exported block: `${role}\n\n${msg.content}\n` where the role label
is `👤 **User**` for user messages and `🤖 **Assistant**` otherwise. -/
def renderBlock (m : Message) : String :=
  (if m.role = Role.user then "👤 **User**" else "🤖 **Assistant**") ++
    "\n\n" ++ m.content ++ "\n"

/-- JavaScript `Array.prototype.join(sep)`. -/
def joinSep (sep : String) : List String → String
  | [] => ""
  | [x] => x
  | x :: y :: xs => x ++ sep ++ joinSep sep (y :: xs)

/-- The markdown string built by `copyAsMarkdown` (lines 127-134) from a
message list: filter out system messages, render each block, join with the
horizontal-rule separator. -/
def markdownOf (msgs : List Message) : String :=
  joinSep "\n---\n\n" ((msgs.filter nonSystem).map renderBlock)

/-- Embeds `copyAsMarkdown`'s string construction on the component state. -/
def copyAsMarkdown (s : ConvState) : String :=
  markdownOf s.messages

/-- Visible outcome of the whole `copyAsMarkdown` action including the
clipboard write (lines 136-141), parameterised by whether the clipboard
write succeeds. -/
structure CopyOutcome where
  state : ConvState
  text : String
  notices : List String
  errNotices : List String
deriving DecidableEq

/-- The `copyAsMarkdown` action: the conversation state is never touched;
on clipboard success a toast is shown, on failure an error toast. -/
def copyAsMarkdownAction (s : ConvState) (clipboardOk : Bool) : CopyOutcome :=
  { state := s
    text := copyAsMarkdown s
    notices := if clipboardOk then ["对话已复制为 Markdown"] else []
    errNotices := if clipboardOk then [] else ["复制失败"] }

/-! ### Helper lemmas about the streaming fold -/

theorem foldl_onChunk_preserves (chunks : List String) (s : ConvState) :
    (chunks.foldl onChunk s).messages = s.messages ∧
    (chunks.foldl onChunk s).isLoading = s.isLoading ∧
    (chunks.foldl onChunk s).currentInput = s.currentInput := by
  induction chunks generalizing s with
  | nil => exact ⟨rfl, rfl, rfl⟩
  | cons c cs ih => simpa [onChunk] using ih (onChunk s c)

/-! ### Claim theorems for the state machine -/

/-- C1: for every run of a single turn in which the adapter invokes
`onChunk` zero or more times and then `onComplete full`, the resulting
history is the old history extended with exactly the new assistant message
containing `full`, the streaming buffer is empty afterwards, and
`isLoading` is false afterwards. -/
theorem turn_onComplete_commits_full (s : ConvState) (chunks : List String)
    (full : String) :
    (onComplete (chunks.foldl onChunk s) full).messages =
      s.messages ++ [⟨Role.assistant, full⟩] ∧
    (onComplete (chunks.foldl onChunk s) full).streamingMessage = "" ∧
    (onComplete (chunks.foldl onChunk s) full).isLoading = false := by
  refine ⟨?_, rfl, rfl⟩
  simp [onComplete, (foldl_onChunk_preserves chunks s).1]

/-- C2: whenever `isLoading` is true, or the draft is empty after
trimming, `sendMessage` is a no-op: the state is returned unchanged, no
notification is pushed and the adapter is not called. -/
theorem sendMessage_noop_when_loading_or_blank (settings : Settings)
    (s : ConvState)
    (h : s.isLoading = true ∨ jsTrim s.currentInput = "") :
    sendMessage settings s = ⟨s, [], none⟩ := by
  rw [sendMessage, if_pos]
  tauto

/-- Witness for C2 at a concrete loading state. -/
theorem sendMessage_noop_when_loading_or_blank_witness :
    ((⟨[], "hi", true, ""⟩ : ConvState).isLoading = true ∨
      jsTrim (⟨[], "hi", true, ""⟩ : ConvState).currentInput = "") ∧
    sendMessage ⟨"k", "m", "", "openai", 0, 0, ""⟩ ⟨[], "hi", true, ""⟩ =
      ⟨⟨[], "hi", true, ""⟩, [], none⟩ :=
  ⟨Or.inl rfl,
    sendMessage_noop_when_loading_or_blank ⟨"k", "m", "", "openai", 0, 0, ""⟩
      ⟨[], "hi", true, ""⟩ (Or.inl rfl)⟩

/-- C3: with a non-empty trimmed draft and not loading, if the API key or
the model is missing (falsy), `sendMessage` pushes exactly the matching
configuration-error notification, issues no adapter call, and leaves the
state unchanged. -/
theorem sendMessage_missing_config_error (settings : Settings)
    (s : ConvState) (h1 : jsTrim s.currentInput ≠ "")
    (h2 : s.isLoading = false)
    (h3 : settings.aiApiKey = "" ∨ settings.aiModel = "") :
    (sendMessage settings s).state = s ∧
    (sendMessage settings s).call = none ∧
    (sendMessage settings s).errMsgs =
      (if settings.aiApiKey = "" then ["请先在设置中配置 API Key"]
       else ["请先在设置中选择模型"]) := by
  rw [sendMessage, if_neg (by simp [h1, h2])]
  by_cases hk : settings.aiApiKey = ""
  · simp [hk]
  · have hm : settings.aiModel = "" := h3.resolve_left hk
    simp [hk, hm]

/-- Witness for C3 at a concrete state with a missing API key. -/
theorem sendMessage_missing_config_error_witness :
    (jsTrim (⟨[], "hello", false, ""⟩ : ConvState).currentInput ≠ "" ∧
      (⟨[], "hello", false, ""⟩ : ConvState).isLoading = false ∧
      ((⟨"", "gpt-x", "", "openai", 0, 0, ""⟩ : Settings).aiApiKey = "" ∨
        (⟨"", "gpt-x", "", "openai", 0, 0, ""⟩ : Settings).aiModel = "")) ∧
    ((sendMessage ⟨"", "gpt-x", "", "openai", 0, 0, ""⟩
        ⟨[], "hello", false, ""⟩).state = ⟨[], "hello", false, ""⟩ ∧
      (sendMessage ⟨"", "gpt-x", "", "openai", 0, 0, ""⟩
        ⟨[], "hello", false, ""⟩).call = none ∧
      (sendMessage ⟨"", "gpt-x", "", "openai", 0, 0, ""⟩
        ⟨[], "hello", false, ""⟩).errMsgs =
        (if (⟨"", "gpt-x", "", "openai", 0, 0, ""⟩ : Settings).aiApiKey = ""
         then ["请先在设置中配置 API Key"]
         else ["请先在设置中选择模型"])) :=
  ⟨⟨by decide, rfl, Or.inl rfl⟩,
    sendMessage_missing_config_error ⟨"", "gpt-x", "", "openai", 0, 0, ""⟩
      ⟨[], "hello", false, ""⟩ (by decide) rfl (Or.inl rfl)⟩

/-- C4: with a non-empty trimmed draft, not loading, and key and model
configured, `sendMessage` appends exactly one user message (the trimmed
draft), clears the draft, sets `isLoading`, clears the streaming buffer,
pushes no error notification, and invokes the adapter with the optional
system prompt (first, as a system message) followed by the new history
with all system entries excluded. -/
theorem sendMessage_success_dispatch (settings : Settings) (s : ConvState)
    (h1 : jsTrim s.currentInput ≠ "") (h2 : s.isLoading = false)
    (h3 : settings.aiApiKey ≠ "") (h4 : settings.aiModel ≠ "") :
    (sendMessage settings s).state.messages =
      s.messages ++ [⟨Role.user, jsTrim s.currentInput⟩] ∧
    (sendMessage settings s).state.currentInput = "" ∧
    (sendMessage settings s).state.isLoading = true ∧
    (sendMessage settings s).state.streamingMessage = "" ∧
    (sendMessage settings s).errMsgs = [] ∧
    ∃ c : AdapterCall,
      (sendMessage settings s).call = some c ∧
      c.msgs =
        (if settings.aiSystemPrompt = "" then ([] : List Message)
         else [⟨Role.system, settings.aiSystemPrompt⟩]) ++
        List.filter nonSystem
          (s.messages ++ [Message.mk Role.user (jsTrim s.currentInput)]) := by
  rw [sendMessage, if_neg (by simp [h1, h2]), if_neg h3, if_neg h4]
  refine ⟨rfl, rfl, rfl, rfl, rfl, _, rfl, ?_⟩
  by_cases hp : settings.aiSystemPrompt = "" <;> simp [hp]

/-- Witness for C4 at a concrete configured state. -/
theorem sendMessage_success_dispatch_witness :
    (jsTrim (⟨[], "hi", false, ""⟩ : ConvState).currentInput ≠ "" ∧
      (⟨[], "hi", false, ""⟩ : ConvState).isLoading = false ∧
      (⟨"k", "m", "", "openai", 0, 0, ""⟩ : Settings).aiApiKey ≠ "" ∧
      (⟨"k", "m", "", "openai", 0, 0, ""⟩ : Settings).aiModel ≠ "") ∧
    ((sendMessage ⟨"k", "m", "", "openai", 0, 0, ""⟩
        ⟨[], "hi", false, ""⟩).state.messages =
      ([] : List Message) ++ [⟨Role.user, jsTrim "hi"⟩] ∧
      (sendMessage ⟨"k", "m", "", "openai", 0, 0, ""⟩
        ⟨[], "hi", false, ""⟩).state.currentInput = "" ∧
      (sendMessage ⟨"k", "m", "", "openai", 0, 0, ""⟩
        ⟨[], "hi", false, ""⟩).state.isLoading = true ∧
      (sendMessage ⟨"k", "m", "", "openai", 0, 0, ""⟩
        ⟨[], "hi", false, ""⟩).state.streamingMessage = "" ∧
      (sendMessage ⟨"k", "m", "", "openai", 0, 0, ""⟩
        ⟨[], "hi", false, ""⟩).errMsgs = [] ∧
      ∃ c : AdapterCall,
        (sendMessage ⟨"k", "m", "", "openai", 0, 0, ""⟩
          ⟨[], "hi", false, ""⟩).call = some c ∧
        c.msgs =
          (if (⟨"k", "m", "", "openai", 0, 0, ""⟩ : Settings).aiSystemPrompt
              = "" then ([] : List Message)
           else [⟨Role.system,
             (⟨"k", "m", "", "openai", 0, 0, ""⟩ : Settings).aiSystemPrompt⟩])
          ++ List.filter nonSystem
            (([] : List Message) ++ [Message.mk Role.user (jsTrim "hi")])) :=
  ⟨⟨by decide, rfl, by decide, by decide⟩,
    sendMessage_success_dispatch ⟨"k", "m", "", "openai", 0, 0, ""⟩
      ⟨[], "hi", false, ""⟩ (by decide) rfl (by decide) (by decide)⟩

/-- C5: for every in-flight turn (any starting state, any chunk
sequence), `onError` pushes the error notification, stops loading, clears
the streaming buffer, and leaves the history unchanged. -/
theorem turn_onError_aborts_preserving_history (s : ConvState)
    (chunks : List String) (e : String) :
    (onError (chunks.foldl onChunk s) e).1.messages = s.messages ∧
    (onError (chunks.foldl onChunk s) e).1.isLoading = false ∧
    (onError (chunks.foldl onChunk s) e).1.streamingMessage = "" ∧
    (onError (chunks.foldl onChunk s) e).2 = "AI 请求失败: " ++ e := by
  refine ⟨?_, rfl, rfl, rfl⟩
  simp [onError, (foldl_onChunk_preserves chunks s).1]

/-- C6: `clearChat` yields an empty history when no system prompt is
configured and exactly the single system-prompt message otherwise, and
leaves the streaming buffer empty. -/
theorem clearChat_resets (settings : Settings) (s : ConvState) :
    (clearChat settings s).messages =
      (if settings.aiSystemPrompt = "" then []
       else [⟨Role.system, settings.aiSystemPrompt⟩]) ∧
    (clearChat settings s).streamingMessage = "" := by
  by_cases hp : settings.aiSystemPrompt = "" <;> simp [clearChat, hp]

/-- C9: when the adapter call throws synchronously at any point of a turn,
the `catch` handler logs the error, resets `isLoading`, clears the
streaming buffer and preserves the history; together with `onError` and
`onComplete` this shows no termination path of a turn leaves `isLoading`
stuck true. -/
theorem adapter_throw_recovery (s : ConvState) (chunks : List String)
    (e full : String) :
    (catchHandler (chunks.foldl onChunk s) e).1.isLoading = false ∧
    (catchHandler (chunks.foldl onChunk s) e).1.streamingMessage = "" ∧
    (catchHandler (chunks.foldl onChunk s) e).1.messages = s.messages ∧
    (catchHandler (chunks.foldl onChunk s) e).2 =
      "Send message error: " ++ e ∧
    (onError (chunks.foldl onChunk s) e).1.isLoading = false ∧
    (onComplete (chunks.foldl onChunk s) full).isLoading = false := by
  refine ⟨rfl, rfl, ?_, rfl, rfl, rfl⟩
  simp [catchHandler, (foldl_onChunk_preserves chunks s).1]

/-! ### Helper lemmas for the markdown export -/

theorem joinSep_cons (sep x : String) (xs : List String) :
    joinSep sep (x :: xs) =
      x ++ (if xs = [] then "" else sep ++ joinSep sep xs) := by
  cases xs with
  | nil => simp [joinSep]
  | cons y ys => simp [joinSep, String.append_assoc]

theorem markdownOf_cons (m : Message) (rest : List Message)
    (h : nonSystem m = true) :
    markdownOf (m :: rest) =
      renderBlock m ++
        (if rest.filter nonSystem = [] then ""
         else "\n---\n\n" ++ markdownOf rest) := by
  have hf : (m :: rest).filter nonSystem = m :: rest.filter nonSystem := by
    simp [List.filter_cons, h]
  rw [markdownOf, hf, List.map_cons, joinSep_cons]
  rcases hr : rest.filter nonSystem with _ | ⟨y, ys⟩
  · simp [hr]
  · simp [markdownOf, hr]

/-- C7: the markdown export ignores system entries wherever they sit in
the history; every non-system message is rendered, in history order, as
its role-labeled block joined by the horizontal-rule separator; and the
clipboard action never changes the conversation state, reporting an error
toast when the clipboard write fails. -/
theorem copyAsMarkdown_spec :
    (∀ (pre post : List Message) (c inp buf : String) (ld : Bool),
      copyAsMarkdown ⟨pre ++ ⟨Role.system, c⟩ :: post, inp, ld, buf⟩ =
        copyAsMarkdown ⟨pre ++ post, inp, ld, buf⟩) ∧
    (∀ (u : String) (rest : List Message),
      markdownOf (⟨Role.user, u⟩ :: rest) =
        "👤 **User**" ++ "\n\n" ++ u ++ "\n" ++
          (if rest.filter nonSystem = [] then ""
           else "\n---\n\n" ++ markdownOf rest)) ∧
    (∀ (a : String) (rest : List Message),
      markdownOf (⟨Role.assistant, a⟩ :: rest) =
        "🤖 **Assistant**" ++ "\n\n" ++ a ++ "\n" ++
          (if rest.filter nonSystem = [] then ""
           else "\n---\n\n" ++ markdownOf rest)) ∧
    markdownOf [⟨Role.system, "sp"⟩, ⟨Role.user, "hi"⟩,
        ⟨Role.assistant, "yo"⟩] =
      "👤 **User**\n\nhi\n\n---\n\n🤖 **Assistant**\n\nyo\n" ∧
    (∀ (s : ConvState) (ok : Bool),
      (copyAsMarkdownAction s ok).state = s) ∧
    (∀ s : ConvState,
      (copyAsMarkdownAction s false).errNotices = ["复制失败"]) := by
  refine ⟨?_, ?_, ?_, ?_, fun s ok => rfl, fun s => rfl⟩
  · intro pre post c inp buf ld
    simp [copyAsMarkdown, markdownOf, List.filter_append, List.filter_cons,
      nonSystem]
  · intro u rest
    rw [markdownOf_cons ⟨Role.user, u⟩ rest rfl]
    simp [renderBlock, String.append_assoc]
  · intro a rest
    rw [markdownOf_cons ⟨Role.assistant, a⟩ rest rfl]
    simp [renderBlock, String.append_assoc]
  · rfl

/-! ### The `formatMessage` markdown transform (lines 163-171)

`formatMessage` chains five JavaScript `String.replace` calls with global
regexes, in this order:
1. `/\*\*(.*?)\*\*/g → <strong>$1</strong>`   (lazy, `.` excludes `\n`)
2. `/\*(.*?)\*/g → <em>$1</em>`               (lazy, `.` excludes `\n`)
3. `` /`([^`]+)`/g → <code>$1</code> ``
4. ``` /```(\w+)?\n([\s\S]*?)```/g → <pre><code class="language-$1">$2</code></pre> ```
5. `/\n/g → <br>`

Each is embedded as a left-to-right scanner over `List Char` mirroring the
regex engine on these patterns: at each position the pattern is tried; on
success the replacement is emitted and scanning resumes after the match;
on failure one character is emitted and scanning advances by one.  All
five patterns only produce non-empty matches, so this is exactly the
semantics of a global replace. -/

/-- The backtick character (written by code to keep it out of the Lean
source text). -/
def tick : Char := Char.ofNat 96

/-- JavaScript regex `\w`: ASCII letters, digits and underscore. -/
def isWordChar (c : Char) : Bool := c.isAlphanum || c = '_'

/-- Lazy search for the closing `**` of `/\*\*(.*?)\*\*/`: at each step
first try to close, then consume one capture character, failing on a
newline (`.` does not match `\n`).  Returns the capture and the remainder
after the closing `**`. -/
def boldClose : List Char → Option (List Char × List Char)
  | c1 :: c2 :: rest =>
    if c1 = '*' ∧ c2 = '*' then some ([], rest)
    else if c1 = '\n' then none
    else (boldClose (c2 :: rest)).map fun p => (c1 :: p.1, p.2)
  | _ => none

theorem boldClose_length :
    ∀ l cap rem : List Char, boldClose l = some (cap, rem) →
      cap.length + rem.length + 2 = l.length := by
  intro l
  induction l using boldClose.induct with
  | case1 c1 c2 rest hc =>
    intro cap rem h
    rw [boldClose, if_pos hc] at h
    simp at h
    simp [← h.1, ← h.2]
  | case2 c2 rest hc =>
    intro cap rem h
    rw [boldClose, if_neg hc, if_pos rfl] at h
    exact absurd h (by simp)
  | case3 c1 c2 rest hc hn ih =>
    intro cap rem h
    rw [boldClose, if_neg hc, if_neg hn, Option.map_eq_some'] at h
    rcases h with ⟨⟨a, b⟩, hab, heq⟩
    have := ih a b hab
    simp at heq this ⊢
    rw [← heq.1, ← heq.2]
    simp
    omega
  | case4 t hno =>
    intro cap rem h
    rcases t with _ | ⟨c1, _ | ⟨c2, rest⟩⟩
    · exact absurd h (by simp [boldClose])
    · exact absurd h (by simp [boldClose])
    · exact ((hno c1 c2 rest rfl)).elim

/-- Step 1: global replace of `/\*\*(.*?)\*\*/g` by `<strong>$1</strong>`. -/
def replaceBold : List Char → List Char
  | c1 :: c2 :: rest =>
    if c1 = '*' ∧ c2 = '*' then
      match h : boldClose rest with
      | some (cap, rem) =>
        "<strong>".toList ++ cap ++ "</strong>".toList ++ replaceBold rem
      | none => c1 :: replaceBold (c2 :: rest)
    else c1 :: replaceBold (c2 :: rest)
  | l => l
termination_by l => l.length
decreasing_by
  · have := boldClose_length rest cap rem h
    simp
    omega
  · simp
  · simp

/-- Lazy search for the closing `*` of `/\*(.*?)\*/`. -/
def italClose : List Char → Option (List Char × List Char)
  | c :: rest =>
    if c = '*' then some ([], rest)
    else if c = '\n' then none
    else (italClose rest).map fun p => (c :: p.1, p.2)
  | [] => none

theorem italClose_length :
    ∀ l cap rem : List Char, italClose l = some (cap, rem) →
      cap.length + rem.length + 1 = l.length := by
  intro l
  induction l with
  | nil => intro cap rem h; exact absurd h (by simp [italClose])
  | cons c rest ih =>
    intro cap rem h
    by_cases hc : c = '*'
    · rw [italClose, if_pos hc] at h
      simp at h
      simp [← h.1, ← h.2]
    · by_cases hn : c = '\n'
      · rw [italClose, if_neg hc, if_pos hn] at h
        exact absurd h (by simp)
      · rw [italClose, if_neg hc, if_neg hn, Option.map_eq_some'] at h
        rcases h with ⟨⟨a, b⟩, hab, heq⟩
        have := ih a b hab
        simp at heq this ⊢
        rw [← heq.1, ← heq.2]
        simp
        omega

/-- Step 2: global replace of `/\*(.*?)\*/g` by `<em>$1</em>`. -/
def replaceItal : List Char → List Char
  | c :: rest =>
    if c = '*' then
      match h : italClose rest with
      | some (cap, rem) =>
        "<em>".toList ++ cap ++ "</em>".toList ++ replaceItal rem
      | none => c :: replaceItal rest
    else c :: replaceItal rest
  | [] => []
termination_by l => l.length
decreasing_by
  · have := italClose_length rest cap rem h
    simp
    omega
  · simp
  · simp

/-- Split at the first backtick: returns the backtick-free prefix and the
remainder after that backtick (the `[^`]+` capture candidate of the
inline-code regex, which must additionally be non-empty). -/
def codeSplit : List Char → Option (List Char × List Char)
  | [] => none
  | c :: rest =>
    if c = tick then some ([], rest)
    else (codeSplit rest).map fun p => (c :: p.1, p.2)

theorem codeSplit_eq :
    ∀ l cap rem : List Char, codeSplit l = some (cap, rem) →
      l = cap ++ tick :: rem ∧ tick ∉ cap := by
  intro l
  induction l with
  | nil => intro cap rem h; exact absurd h (by simp [codeSplit])
  | cons c rest ih =>
    intro cap rem h
    by_cases hc : c = tick
    · rw [codeSplit, if_pos hc] at h
      simp at h
      rcases h with ⟨h1, h2⟩
      subst h1
      subst h2
      simp [hc]
    · rw [codeSplit, if_neg hc, Option.map_eq_some'] at h
      rcases h with ⟨⟨a, b⟩, hab, heq⟩
      rcases ih a b hab with ⟨h1, h2⟩
      simp at heq
      rw [← heq.1, ← heq.2]
      refine ⟨by simp [h1], ?_⟩
      simp [h2]
      exact fun hh => hc hh.symm

theorem codeSplit_length (l cap rem : List Char)
    (h : codeSplit l = some (cap, rem)) :
    cap.length + rem.length + 1 = l.length := by
  have := (codeSplit_eq l cap rem h).1
  subst this
  simp
  omega

theorem codeSplit_none : ∀ l : List Char, codeSplit l = none → tick ∉ l := by
  intro l
  induction l with
  | nil => simp
  | cons c rest ih =>
    intro h
    by_cases hc : c = tick
    · rw [codeSplit, if_pos hc] at h
      exact absurd h (by simp)
    · rw [codeSplit, if_neg hc] at h
      simp only [List.mem_cons, not_or]
      exact ⟨fun hh => hc hh.symm, ih (by simpa using h)⟩

/-- Step 3: global replace of `` /`([^`]+)`/g `` by `<code>$1</code>`.
A match needs an opening backtick, a non-empty backtick-free body and a
closing backtick. -/
def replaceCode : List Char → List Char
  | [] => []
  | c :: rest =>
    if c = tick then
      match h : codeSplit rest with
      | some (cap, rem) =>
        if cap = [] then c :: replaceCode rest
        else "<code>".toList ++ cap ++ "</code>".toList ++ replaceCode rem
      | none => c :: replaceCode rest
    else c :: replaceCode rest
termination_by l => l.length
decreasing_by
  · simp
  · have := codeSplit_length rest cap rem h
    simp
    omega
  · simp
  · simp

/-- Lazy search for the closing ``` ``` ``` of the fenced-code regex
(`[\s\S]*?` matches any character, so no newline restriction). -/
def fenceClose : List Char → Option (List Char × List Char)
  | c1 :: c2 :: c3 :: rest =>
    if c1 = tick ∧ c2 = tick ∧ c3 = tick then some ([], rest)
    else (fenceClose (c2 :: c3 :: rest)).map fun p => (c1 :: p.1, p.2)
  | _ => none

theorem fenceClose_length :
    ∀ l cap rem : List Char, fenceClose l = some (cap, rem) →
      cap.length + rem.length + 3 = l.length := by
  intro l
  induction l using fenceClose.induct with
  | case1 c1 c2 c3 rest hc =>
    intro cap rem h
    rw [fenceClose, if_pos hc] at h
    simp at h
    simp [← h.1, ← h.2]
  | case2 c1 c2 c3 rest hc ih =>
    intro cap rem h
    rw [fenceClose, if_neg hc, Option.map_eq_some'] at h
    rcases h with ⟨⟨a, b⟩, hab, heq⟩
    have := ih a b hab
    simp at heq this ⊢
    rw [← heq.1, ← heq.2]
    simp
    omega
  | case3 t hno =>
    intro cap rem h
    rcases t with _ | ⟨c1, _ | ⟨c2, _ | ⟨c3, rest⟩⟩⟩
    · exact absurd h (by simp [fenceClose])
    · exact absurd h (by simp [fenceClose])
    · exact absurd h (by simp [fenceClose])
    · exact ((hno c1 c2 c3 rest rfl)).elim

theorem fenceClose_none_of_no_tick :
    ∀ l : List Char, tick ∉ l → fenceClose l = none := by
  intro l
  induction l using fenceClose.induct with
  | case1 c1 c2 c3 rest hc =>
    intro h
    exact absurd (by simp [hc.1] : tick ∈ c1 :: c2 :: c3 :: rest) h
  | case2 c1 c2 c3 rest hc ih =>
    intro h
    rw [fenceClose, if_neg hc, ih (fun hm => h (List.mem_cons_of_mem c1 hm))]
    rfl
  | case3 t hno =>
    intro h
    rcases t with _ | ⟨c1, _ | ⟨c2, _ | ⟨c3, rest⟩⟩⟩
    · rfl
    · rfl
    · rfl
    · exact ((hno c1 c2 c3 rest rfl)).elim

/-- The `(\w+)?\n` part after the opening ``` ``` ``` followed by the lazy
body search: the optional greedy word run must be followed by a newline
(shorter backtrackings of `(\w+)?` hit a word character, never `\n`, so
skipping the maximal word run is exact).  Returns language, body and
remainder after the closing fence. -/
def fenceOpen (l : List Char) : Option (List Char × List Char × List Char) :=
  if (l.dropWhile isWordChar).head? = some '\n' then
    (fenceClose (l.dropWhile isWordChar).tail).map
      fun p => (l.takeWhile isWordChar, p.1, p.2)
  else none

theorem fenceOpen_length (l lang body rem : List Char)
    (h : fenceOpen l = some (lang, body, rem)) : rem.length < l.length := by
  rw [fenceOpen] at h
  by_cases hcond : (l.dropWhile isWordChar).head? = some '\n'
  · rw [if_pos hcond, Option.map_eq_some'] at h
    rcases h with ⟨⟨a, b⟩, hab, heq⟩
    have h3 := fenceClose_length _ a b hab
    have h5 : (l.dropWhile isWordChar).length ≤ l.length :=
      (List.dropWhile_sublist _).length_le
    have h6 : (l.dropWhile isWordChar).tail.length + 1 =
        (l.dropWhile isWordChar).length := by
      rcases hdw : l.dropWhile isWordChar with _ | ⟨x, xs⟩
      · rw [hdw] at hcond
        exact absurd hcond (by simp)
      · simp
    simp at heq
    rw [← heq.2.2]
    omega
  · rw [if_neg hcond] at h
    exact absurd h (by simp)

/-- The replacement text `<pre><code class="language-$1">$2</code></pre>`
of the fenced-code regex. -/
def fenceRepl (lang body : List Char) : List Char :=
  "<pre><code class=\"language-".toList ++ lang ++ "\">".toList ++ body ++
    "</code></pre>".toList

/-- Step 4: global replace of the fenced-code regex
``` /```(\w+)?\n([\s\S]*?)```/g ```. -/
def replaceFence : List Char → List Char
  | c1 :: c2 :: c3 :: rest =>
    if c1 = tick ∧ c2 = tick ∧ c3 = tick then
      match h : fenceOpen rest with
      | some (lang, body, rem) => fenceRepl lang body ++ replaceFence rem
      | none => c1 :: replaceFence (c2 :: c3 :: rest)
    else c1 :: replaceFence (c2 :: c3 :: rest)
  | l => l
termination_by l => l.length
decreasing_by
  · have := fenceOpen_length rest lang body rem h
    simp
    omega
  · simp
  · simp

/-- Step 5: global replace of `/\n/g` by `<br>`. -/
def replaceBr : List Char → List Char
  | [] => []
  | c :: rest =>
    if c = '\n' then "<br>".toList ++ replaceBr rest else c :: replaceBr rest

/-- Embeds `formatMessage` (lines 163-171): the five global replaces in
source order — bold, italic, inline code, fenced code, newline. -/
def formatMessage (content : String) : String :=
  String.mk (replaceBr (replaceFence (replaceCode (replaceItal
    (replaceBold content.data)))))

/-! ### Step lemmas for the worklist scanners -/

theorem replaceCode_cons_of_ne (c : Char) (rest : List Char)
    (hc : ¬c = tick) : replaceCode (c :: rest) = c :: replaceCode rest := by
  rw [replaceCode, if_neg hc]

theorem replaceCode_tick_empty (rest rem : List Char)
    (hs : codeSplit rest = some ([], rem)) :
    replaceCode (tick :: rest) = tick :: replaceCode rest := by
  rw [replaceCode, if_pos rfl]
  split
  next cap rem2 heq =>
    have h2 := hs.symm.trans heq
    cases h2
    rw [if_pos rfl]
  next heq =>
    exact absurd hs (by rw [heq]; simp)

theorem replaceCode_tick_body (rest cap rem : List Char)
    (hs : codeSplit rest = some (cap, rem)) (hne : cap ≠ []) :
    replaceCode (tick :: rest) =
      "<code>".toList ++ cap ++ "</code>".toList ++ replaceCode rem := by
  rw [replaceCode, if_pos rfl]
  split
  next cap2 rem2 heq =>
    have h2 := hs.symm.trans heq
    cases h2
    rw [if_neg hne]
  next heq =>
    exact absurd hs (by rw [heq]; simp)

theorem replaceCode_tick_none (rest : List Char)
    (hs : codeSplit rest = none) :
    replaceCode (tick :: rest) = tick :: replaceCode rest := by
  rw [replaceCode, if_pos rfl]
  split
  next cap rem2 heq =>
    exact absurd hs (by rw [heq]; simp)
  next heq => rfl

theorem replaceFence_cons_of_ne (c1 c2 c3 : Char) (rest : List Char)
    (hc : ¬(c1 = tick ∧ c2 = tick ∧ c3 = tick)) :
    replaceFence (c1 :: c2 :: c3 :: rest) =
      c1 :: replaceFence (c2 :: c3 :: rest) := by
  rw [replaceFence, if_neg hc]

theorem replaceFence_ticks_noopen (rest : List Char)
    (hs : fenceOpen rest = none) :
    replaceFence (tick :: tick :: tick :: rest) =
      tick :: replaceFence (tick :: tick :: rest) := by
  rw [replaceFence, if_pos ⟨rfl, rfl, rfl⟩]
  split
  next lang body rem heq =>
    exact absurd hs (by rw [heq]; simp)
  next heq => rfl

/-! ### The transform is the identity on token-free text -/

theorem replaceBold_no_star :
    ∀ l : List Char, '*' ∉ l → replaceBold l = l := by
  intro l
  induction l using replaceBold.induct with
  | case1 c1 c2 rest hc cap rem hsplit ih =>
    intro h
    exact absurd (by rw [hc.1]; exact List.mem_cons_self _ _) h
  | case2 c1 c2 rest hc hsplit ih =>
    intro h
    exact absurd (by rw [hc.1]; exact List.mem_cons_self _ _) h
  | case3 c1 c2 rest hc ih =>
    intro h
    rw [replaceBold, if_neg hc, ih (fun hm => h (List.mem_cons_of_mem _ hm))]
  | case4 x hno =>
    intro h
    rcases x with _ | ⟨c, _ | ⟨c2, rest⟩⟩
    · simp [replaceBold]
    · simp [replaceBold]
    · exact (hno c c2 rest rfl).elim

theorem replaceItal_no_star :
    ∀ l : List Char, '*' ∉ l → replaceItal l = l := by
  intro l
  induction l using replaceItal.induct with
  | case1 rest cap rem hsplit ih =>
    intro h
    exact absurd (List.mem_cons_self _ _) h
  | case2 rest hsplit ih =>
    intro h
    exact absurd (List.mem_cons_self _ _) h
  | case3 c rest hc ih =>
    intro h
    rw [replaceItal, if_neg hc, ih (fun hm => h (List.mem_cons_of_mem _ hm))]
  | case4 =>
    intro _
    simp [replaceItal]

theorem replaceCode_no_tick :
    ∀ l : List Char, tick ∉ l → replaceCode l = l := by
  intro l
  induction l using replaceCode.induct with
  | case1 =>
    intro _
    simp [replaceCode]
  | case2 rest rem hsplit ih =>
    intro h
    exact absurd (List.mem_cons_self _ _) h
  | case3 rest cap rem hsplit hne ih =>
    intro h
    exact absurd (List.mem_cons_self _ _) h
  | case4 rest hsplit ih =>
    intro h
    exact absurd (List.mem_cons_self _ _) h
  | case5 c rest hc ih =>
    intro h
    rw [replaceCode_cons_of_ne c rest hc,
      ih (fun hm => h (List.mem_cons_of_mem _ hm))]

theorem replaceFence_no_tick :
    ∀ l : List Char, tick ∉ l → replaceFence l = l := by
  intro l
  induction l using replaceFence.induct with
  | case1 c1 c2 c3 rest hc lang body rem hopen ih =>
    intro h
    exact absurd (by rw [hc.1]; exact List.mem_cons_self _ _) h
  | case2 c1 c2 c3 rest hc hopen ih =>
    intro h
    exact absurd (by rw [hc.1]; exact List.mem_cons_self _ _) h
  | case3 c1 c2 c3 rest hc ih =>
    intro h
    rw [replaceFence_cons_of_ne c1 c2 c3 rest hc,
      ih (fun hm => h (List.mem_cons_of_mem _ hm))]
  | case4 x hno =>
    intro h
    rcases x with _ | ⟨a, _ | ⟨b, _ | ⟨c, r⟩⟩⟩
    · simp [replaceFence]
    · simp [replaceFence]
    · simp [replaceFence]
    · exact (hno a b c r rfl).elim

/-! ### Character-level facts about the newline pass -/

theorem replaceBr_mem (c : Char) :
    ∀ l : List Char, c ∈ replaceBr l →
      (c ∈ l ∧ c ≠ '\n') ∨ c ∈ "<br>".toList := by
  intro l
  induction l using replaceBr.induct with
  | case1 =>
    intro h
    simp [replaceBr] at h
  | case2 rest ih =>
    intro h
    rw [replaceBr, if_pos rfl] at h
    rcases List.mem_append.1 h with hm | hm
    · exact Or.inr hm
    · rcases ih hm with ⟨h1, h2⟩ | hm2
      · exact Or.inl ⟨List.mem_cons_of_mem _ h1, h2⟩
      · exact Or.inr hm2
  | case3 x rest hx ih =>
    intro h
    rw [replaceBr, if_neg hx] at h
    rcases List.mem_cons.1 h with rfl | hm
    · exact Or.inl ⟨List.mem_cons_self _ _, hx⟩
    · rcases ih hm with ⟨h1, h2⟩ | hm2
      · exact Or.inl ⟨List.mem_cons_of_mem _ h1, h2⟩
      · exact Or.inr hm2

theorem replaceBr_id_of_no_newline :
    ∀ l : List Char, '\n' ∉ l → replaceBr l = l := by
  intro l
  induction l using replaceBr.induct with
  | case1 => intro _; rfl
  | case2 rest ih =>
    intro h
    exact absurd (List.mem_cons_self _ _) h
  | case3 c rest hc ih =>
    intro h
    rw [replaceBr, if_neg hc, ih (fun hm => h (List.mem_cons_of_mem _ hm))]

/-- C8: on input containing none of the markup marker characters (`*` for
bold and italic, backtick for inline and fenced code), `formatMessage`
performs exactly the newline-to-`<br>` substitution and nothing else, and
re-applying the transform to such a transformed text changes nothing. -/
theorem formatMessage_plain_newline_only (s : String)
    (h1 : '*' ∉ s.data) (h2 : tick ∉ s.data) :
    formatMessage s = String.mk (replaceBr s.data) ∧
    formatMessage (formatMessage s) = formatMessage s := by
  have e1 : formatMessage s = String.mk (replaceBr s.data) := by
    rw [formatMessage, replaceBold_no_star _ h1, replaceItal_no_star _ h1,
      replaceCode_no_tick _ h2, replaceFence_no_tick _ h2]
  refine ⟨e1, ?_⟩
  have hdata : (formatMessage s).data = replaceBr s.data := by rw [e1]
  have h1' : '*' ∉ (formatMessage s).data := by
    rw [hdata]
    intro hm
    rcases replaceBr_mem _ _ hm with ⟨hm1, _⟩ | hm2
    · exact h1 hm1
    · exact absurd hm2 (by decide)
  have h2' : tick ∉ (formatMessage s).data := by
    rw [hdata]
    intro hm
    rcases replaceBr_mem _ _ hm with ⟨hm1, _⟩ | hm2
    · exact h2 hm1
    · exact absurd hm2 (by decide)
  have h3' : '\n' ∉ (formatMessage s).data := by
    rw [hdata]
    intro hm
    rcases replaceBr_mem _ _ hm with ⟨_, hne⟩ | hm2
    · exact hne rfl
    · exact absurd hm2 (by decide)
  calc formatMessage (formatMessage s)
      = String.mk (replaceBr (formatMessage s).data) := by
        rw [formatMessage, replaceBold_no_star _ h1',
          replaceItal_no_star _ h1', replaceCode_no_tick _ h2',
          replaceFence_no_tick _ h2']
    _ = String.mk (formatMessage s).data := by
        rw [replaceBr_id_of_no_newline _ h3']
    _ = formatMessage s := rfl

/-- Witness for C8 at the concrete plain input `"a\nb"`. -/
theorem formatMessage_plain_newline_only_witness :
    (('*' ∉ "a\nb".data) ∧ (tick ∉ "a\nb".data)) ∧
    (formatMessage "a\nb" = String.mk (replaceBr "a\nb".data) ∧
      formatMessage (formatMessage "a\nb") = formatMessage "a\nb") :=
  ⟨⟨by decide, by decide⟩,
    formatMessage_plain_newline_only "a\nb" (by decide) (by decide)⟩

/-! ### The fenced-code rule is dead code

The invariant `okd` holds of every output of the inline-code pass: every
backtick in it is immediately followed by another backtick or by `<`, or
has no backtick anywhere after it.  A fenced-code match would need an
opening ``` ``` ``` whose following character (after an optional word run)
is a newline, and a closing ``` ``` ``` somewhere later; `okd` rules both
out simultaneously. -/

def okd : List Char → Prop
  | [] => True
  | c :: rest =>
    (c = tick → rest.head? = some tick ∨ rest.head? = some '<' ∨
      tick ∉ rest) ∧ okd rest

theorem okd_of_no_tick : ∀ l : List Char, tick ∉ l → okd l := by
  intro l
  induction l with
  | nil => intro _; trivial
  | cons c rest ih =>
    intro h
    refine ⟨fun hc => ?_, ih (fun hm => h (List.mem_cons_of_mem _ hm))⟩
    subst hc
    exact absurd (List.mem_cons_self _ _) h

theorem okd_append :
    ∀ pre l : List Char, tick ∉ pre → okd l → okd (pre ++ l) := by
  intro pre
  induction pre with
  | nil =>
    intro l _ hl
    simpa using hl
  | cons c p ih =>
    intro l hpre hl
    refine ⟨fun hc => ?_,
      ih l (fun hm => hpre (List.mem_cons_of_mem _ hm)) hl⟩
    subst hc
    exact absurd (List.mem_cons_self _ _) hpre

theorem replaceCode_tick_head (rest : List Char) :
    (replaceCode (tick :: rest)).head? = some tick ∨
    (replaceCode (tick :: rest)).head? = some '<' := by
  rcases hs : codeSplit rest with _ | ⟨cap, rem⟩
  · left
    rw [replaceCode_tick_none rest hs]
    rfl
  · by_cases hne : cap = []
    · left
      rw [hne] at hs
      rw [replaceCode_tick_empty rest rem hs]
      rfl
    · right
      rw [replaceCode_tick_body rest cap rem hs hne]
      rfl

theorem okd_replaceCode : ∀ l : List Char, okd (replaceCode l) := by
  intro l
  induction l using replaceCode.induct with
  | case1 =>
    have h0 : replaceCode [] = [] := by simp [replaceCode]
    rw [h0]
    trivial
  | case2 rest rem hs ih =>
    rw [replaceCode_tick_empty rest rem hs]
    have hrest : rest = tick :: rem := by
      have := (codeSplit_eq rest [] rem hs).1
      simpa using this
    refine ⟨fun _ => ?_, ih⟩
    rw [hrest]
    rcases replaceCode_tick_head rem with hh | hh
    · exact Or.inl hh
    · exact Or.inr (Or.inl hh)
  | case3 rest cap rem hs hne ih =>
    rw [replaceCode_tick_body rest cap rem hs hne]
    have hnc : tick ∉ cap := (codeSplit_eq rest cap rem hs).2
    refine okd_append _ _ ?_ ih
    intro hm
    rcases List.mem_append.1 hm with hm1 | hm2
    · rcases List.mem_append.1 hm1 with hm3 | hm4
      · exact absurd hm3 (by decide)
      · exact hnc hm4
    · exact absurd hm2 (by decide)
  | case4 rest hs ih =>
    have hnt : tick ∉ rest := codeSplit_none rest hs
    rw [replaceCode_tick_none rest hs, replaceCode_no_tick rest hnt]
    exact ⟨fun _ => Or.inr (Or.inr hnt), okd_of_no_tick rest hnt⟩
  | case5 c rest hc ih =>
    rw [replaceCode_cons_of_ne c rest hc]
    exact ⟨fun hcc => absurd hcc hc, ih⟩

theorem fenceOpen_eq_none (rest : List Char)
    (h : rest.head? = some tick ∨ rest.head? = some '<' ∨ tick ∉ rest) :
    fenceOpen rest = none := by
  by_cases hcond : (rest.dropWhile isWordChar).head? = some '\n'
  · rcases h with h | h | h
    · exfalso
      rcases rest with _ | ⟨c, r⟩
      · simp at h
      · have hc : c = tick := by simpa using h
        subst hc
        rw [List.dropWhile_cons, if_neg (by decide), List.head?_cons] at hcond
        exact absurd hcond (by decide)
    · exfalso
      rcases rest with _ | ⟨c, r⟩
      · simp at h
      · have hc : c = '<' := by simpa using h
        subst hc
        rw [List.dropWhile_cons, if_neg (by decide), List.head?_cons] at hcond
        exact absurd hcond (by decide)
    · rw [fenceOpen, if_pos hcond, fenceClose_none_of_no_tick]
      · rfl
      · intro hm
        exact h (List.Sublist.mem hm
          ((List.tail_sublist _).trans (List.dropWhile_sublist _)))
  · rw [fenceOpen, if_neg hcond]

theorem okd_replaceFence_id : ∀ l : List Char, okd l → replaceFence l = l := by
  intro l
  induction l using replaceFence.induct with
  | case1 c1 c2 c3 rest hc lang body rem hopen ih =>
    intro hok
    exfalso
    obtain ⟨rfl, rfl, rfl⟩ := hc
    have hdis := hok.2.2.1 rfl
    rw [fenceOpen_eq_none rest hdis] at hopen
    cases hopen
  | case2 c1 c2 c3 rest hc hopen ih =>
    intro hok
    obtain ⟨rfl, rfl, rfl⟩ := hc
    rw [replaceFence_ticks_noopen rest hopen, ih hok.2]
  | case3 c1 c2 c3 rest hc ih =>
    intro hok
    rw [replaceFence_cons_of_ne c1 c2 c3 rest hc, ih hok.2]
  | case4 x hno =>
    intro hok
    rcases x with _ | ⟨a, _ | ⟨b, _ | ⟨c, r⟩⟩⟩
    · simp [replaceFence]
    · simp [replaceFence]
    · simp [replaceFence]
    · exact (hno a b c r rfl).elim

/-- The canonical C10 input: a fenced code block whose body is `**x**`. -/
def fencedExample : List Char :=
  [tick, tick, tick, '\n', '*', '*', 'x', '*', '*', '\n', tick, tick, tick]

theorem fencedExample_eval :
    (formatMessage (String.mk fencedExample)).data =
      "``<code><br><strong>x</strong><br></code>``".toList := by
  simp [formatMessage, fencedExample, replaceBold, boldClose, replaceItal,
    italClose, replaceCode, codeSplit, replaceFence, fenceOpen, fenceClose,
    fenceRepl, replaceBr, tick, isWordChar]

/-- C10 (counterexample): on the claim's own example — a fenced code block
whose body is `**x**` — the transform produces no pre/code element at all:
the inline-code rule consumes the fence backticks first, so the output
contains the transformed body inside an inline code element and no
`<pre>` anywhere. -/
theorem fenced_markup_block_yields_no_pre :
    (formatMessage (String.mk fencedExample)).data =
      "``<code><br><strong>x</strong><br></code>``".toList ∧
    ¬ List.IsInfix "<pre>".toList
      (formatMessage (String.mk fencedExample)).data ∧
    List.IsInfix "<strong>x</strong>".toList
      (formatMessage (String.mk fencedExample)).data := by
  refine ⟨fencedExample_eval, ?_, ?_⟩
  · rw [fencedExample_eval]
    decide
  · rw [fencedExample_eval]
    decide

/-- C10 (amended): the transform does apply the bold, italic and
inline-code substitutions before the fenced-code-block substitution, but
the fenced-code rule can never fire: on every input the fenced pass is the
identity on the inline-code pass's output, because the inline-code rule
has already consumed the backticks of any fence opener.  Markup inside a
fenced block body is still transformed, but it ends up inside an inline
`<code>` element (between stray backticks), never inside a `<pre><code>`
element. -/
theorem formatMessage_fence_rule_dead :
    (∀ content : String,
      formatMessage content = String.mk (replaceBr (replaceFence
        (replaceCode (replaceItal (replaceBold content.data)))))) ∧
    (∀ l : List Char, replaceFence (replaceCode l) = replaceCode l) ∧
    List.IsInfix "<code><br><strong>x</strong><br></code>".toList
      (formatMessage (String.mk fencedExample)).data ∧
    ¬ List.IsInfix "<pre>".toList
      (formatMessage (String.mk fencedExample)).data := by
  refine ⟨fun content => rfl,
    fun l => okd_replaceFence_id _ (okd_replaceCode l), ?_, ?_⟩
  · rw [fencedExample_eval]
    decide
  · rw [fencedExample_eval]
    decide

end AiSidebar
